import Mathlib

/-!
Verification of the claude-multi-agent core (shallow embedding).

Python strings are modelled as `List Char`; machine floats (retry delays)
are modelled as exact rationals `ℚ`; fallible Python code returns `Except`.
Filesystem and subprocess effects are modelled by explicit state passing
and outcome oracles.  Each definition is translated from the Python source
file named in its doc comment.
-/

namespace CMA

/-! ## Python string primitives -/

/-- Whitespace characters recognised by Python `str.strip()` (ASCII range,
which is all the source ever strips). -/
def pyIsSpace (c : Char) : Bool :=
  c = ' ' ∨ c = '\t' ∨ c = '\n' ∨ c = '\r' ∨ c = '\x0b' ∨ c = '\x0c'

/-- Python `str.lstrip()`. -/
def pyLStrip (s : List Char) : List Char := s.dropWhile pyIsSpace

/-- Python `str.rstrip()`. -/
def pyRStrip (s : List Char) : List Char := (s.reverse.dropWhile pyIsSpace).reverse

/-- Python `str.strip()`. -/
def pyStrip (s : List Char) : List Char := pyRStrip (pyLStrip s)

/-- Helper for splitting on a separator character: returns the first
chunk and the list of remaining chunks.  Mirrors Python `str.split(sep)`,
which keeps empty chunks. -/
def splitSepAux (sep : Char) : List Char → List Char × List (List Char)
  | [] => ([], [])
  | c :: cs =>
    let r := splitSepAux sep cs
    if c = sep then ([], r.1 :: r.2) else (c :: r.1, r.2)

/-- Python `str.split(sep)` (single-character separator, empties kept). -/
def splitSep (sep : Char) (s : List Char) : List (List Char) :=
  (splitSepAux sep s).1 :: (splitSepAux sep s).2

/-- Python `sep.join(chunks)` (single-character separator). -/
def joinSep (sep : Char) : List (List Char) → List Char
  | [] => []
  | [l] => l
  | l :: ls => l ++ sep :: joinSep sep ls

/-- Does `s` start with `pat`?  (Python `str.startswith` on a full scan.) -/
def startsWithL : List Char → List Char → Bool
  | [], _ => true
  | _ :: _, [] => false
  | p :: ps, c :: cs => p = c && startsWithL ps cs

/-- Python substring test `pat in s`. -/
def isSubstr (pat : List Char) : List Char → Bool
  | [] => pat.isEmpty
  | c :: cs => startsWithL pat (c :: cs) || isSubstr pat cs

/-- Python `str.lower()` (ASCII case folding; every phrase the source
matches on is ASCII). -/
def pyLower (s : List Char) : List Char := s.map Char.toLower

/-! ## workspace/mappings.py -/

/-- `os.path.normpath` component step (POSIX): the body of the
`for comp in comps` loop, with the accumulator kept in reverse order
(so Python's `new_comps[-1]` is the head and `pop()` is `tail`). -/
def normStep (absFlag : Bool) (racc : List (List Char)) (comp : List Char) :
    List (List Char) :=
  if comp = [] ∨ comp = ['.'] then racc
  else if comp ≠ ['.', '.'] ∨ (absFlag = false ∧ racc = []) ∨
      (racc ≠ [] ∧ racc.head? = some ['.', '.']) then comp :: racc
  else match racc with
    | [] => []
    | _ :: t => t

/-- The `initial_slashes` count of `posixpath.normpath`: 0 for a
relative path, 2 for a path starting with exactly two slashes, 1
otherwise. -/
def initialSlashes (s : List Char) : Nat :=
  if s.head? ≠ some '/' then 0
  else if s.take 2 = ['/', '/'] ∧ s.take 3 ≠ ['/', '/', '/'] then 2
  else 1

/-- The reassembled path of `posixpath.normpath` before the final
empty-path fallback. -/
def normRes (s : List Char) : List Char :=
  List.replicate (initialSlashes s) '/' ++
    joinSep '/' (((splitSep '/' s).foldl (normStep (initialSlashes s ≠ 0)) []).reverse)

/-- `os.path.normpath` (POSIX rules, as in CPython's `posixpath.normpath`). -/
def pyNormpath (s : List Char) : List Char :=
  if s = [] then ['.']
  else if normRes s = [] then ['.']
  else normRes s

/-- `pathlib` joining `root / rel` for the case the source reaches
(`rel` already checked to be relative); absolute `rel` would replace
`root`, as in pathlib. -/
def pathJoin (root rel : List Char) : List Char :=
  if rel.head? = some '/' then rel else root ++ '/' :: rel

/-- Does splitting `b` into `/`-components start with the components of
`a`?  Empty components are dropped, mirroring `pathlib` `parts` for the
paths reaching this check.  This models `b.relative_to(a)` succeeding. -/
def seqStarts : List (List Char) → List (List Char) → Bool
  | [], _ => true
  | _ :: _, [] => false
  | p :: ps, x :: xs => p = x && seqStarts ps xs

/-- Non-empty `/`-components of a path (the `parts` of a `pathlib` path,
ignoring the root marker). -/
def pathComps (p : List Char) : List (List Char) :=
  (splitSep '/' p).filter (fun c => ¬ c.isEmpty)

/-- `b.relative_to(a)` succeeds: same absoluteness and `a`'s components
lead `b`'s components. -/
def relativeToOk (a b : List Char) : Bool :=
  (a.head? = some '/') = (b.head? = some '/') && seqStarts (pathComps a) (pathComps b)

/-- `PathMapper.resolve_dest_path` (workspace/mappings.py lines 82-111).
`Path.resolve()` is modelled lexically by `pyNormpath` (symlinks are out
of scope of the embedding); the returned path is the unresolved join,
exactly as in the source. -/
def resolve_dest_path (workspace_root dest_path : List Char) :
    Except (List Char) (List Char) :=
  if (pyNormpath dest_path).head? = some '/' ∨ isSubstr ['.', '.'] (pyNormpath dest_path) then
    .error ("Invalid destination path: ".data ++ pyNormpath dest_path)
  else if relativeToOk (pyNormpath workspace_root)
      (pyNormpath (pathJoin workspace_root (pyNormpath dest_path))) then
    .ok (pathJoin workspace_root (pyNormpath dest_path))
  else .error ("Path escapes workspace: ".data ++ pyNormpath dest_path)

/-- `FileMapping.validate` (workspace/mappings.py lines 17-30).  The
filesystem checks on the source path are oracles (`srcExists`,
`srcIsFile`); the destination check is the raw-string test
`".." in self.dest_path or self.dest_path.startswith("/")`. -/
def fileMappingValidate (nameNonEmpty srcExists srcIsFile : Bool)
    (dest_path : List Char) : Except (List Char) Unit :=
  if nameNonEmpty = false then .error "File name cannot be empty".data
  else if srcExists = false then .error "Source file not found".data
  else if srcIsFile = false then .error "Source is not a file".data
  else if isSubstr ['.', '.'] dest_path ∨ dest_path.head? = some '/' then
    .error ("Invalid destination path: ".data ++ dest_path)
  else .ok ()

/-- A destination string contains a parent-traversal segment: some
`/`-separated component is exactly `..` (the spec's notion). -/
def hasParentSegment (s : List Char) : Bool :=
  (splitSep '/' s).contains ['.', '.']

/-- An `Except` is an error. -/
def isErr {ε α : Type} : Except ε α → Bool
  | .error _ => true
  | .ok _ => false

instance {ε α : Type} [DecidableEq ε] [DecidableEq α] : DecidableEq (Except ε α) :=
  fun x y =>
  match x, y with
  | .ok a, .ok b =>
    if h : a = b then .isTrue (by rw [h]) else .isFalse (by simp [h])
  | .error a, .error b =>
    if h : a = b then .isTrue (by rw [h]) else .isFalse (by simp [h])
  | .ok _, .error _ => .isFalse (by simp)
  | .error _, .ok _ => .isFalse (by simp)

/-! ## shell/executor.py : output extraction -/

/-- Line splitting: Python `output.split('\n')`. -/
def splitNl (s : List Char) : List (List Char) := splitSep '\n' s

/-- Joining: Python `'\n'.join(lines)`. -/
def joinNl (ls : List (List Char)) : List Char := joinSep '\n' ls

/-- The test `line.strip().startswith('{')` from `_sanitize_output`. -/
def lineStartsBrace (l : List Char) : Bool := (pyStrip l).head? = some '{'

/-- `line.count('{') - line.count('}')` as an integer. -/
def braceDelta (l : List Char) : Int :=
  (l.count '{' : Int) - (l.count '}' : Int)

/-- Running brace balance of a block of lines. -/
def lineBal (ls : List (List Char)) : Int := (ls.map braceDelta).sum

/-- The scan for the first line whose trimmed text begins with `{`;
returns the line list from that line on (the code computes the index
`json_start_idx` and then slices `lines[json_start_idx:]`, which is the
same suffix). -/
def findJsonStart : List (List Char) → Option (List (List Char))
  | [] => none
  | l :: ls => if lineStartsBrace l then some (l :: ls) else findJsonStart ls

/-- The accumulation loop of `_sanitize_output`: append each line,
update the running balance, stop once it returns to zero. -/
def collectBalanced : List (List Char) → Int → List (List Char)
  | [], _ => []
  | l :: ls, c =>
    let c' := c + braceDelta l
    l :: (if c' = 0 then [] else collectBalanced ls c')

/-- `ShellExecutor._sanitize_output` (shell/executor.py lines 74-108):
strip the output, split into lines, locate the first `{`-line, collect
lines by brace counting; `ExecutionError("No JSON found in output")`
when no line qualifies. -/
def sanitize_output (output : List Char) : Except (List Char) (List Char) :=
  match findJsonStart (splitNl (pyStrip output)) with
  | none => .error "No JSON found in output".data
  | some rest => .ok (joinNl (collectBalanced rest 0))

/-! ## shell/executor.py : error classification -/

/-- The two error classes raised by `_handle_error`
(core/exceptions.py); `SessionError` is not a subclass of
`ExecutionError`, so a retry that catches only `ExecutionError` never
catches a `SessionError`. -/
inductive CliError : Type
  | sessionError (msg : List Char)
  | executionError (msg : List Char)
deriving DecidableEq

/-- Is the error an `ExecutionError`?  (The membership test of
`except (ExecutionError,)` in the retry decorator.) -/
def isExecutionError : CliError → Bool
  | .executionError _ => true
  | .sessionError _ => false

/-- Python `repr`-free rendering of `session_id` in the f-strings of
`_handle_error`: `None` when absent, the id text otherwise. -/
def sessionIdText : Option (List Char) → List Char
  | none => "None".data
  | some s => s

/-- `ShellExecutor._handle_error` (shell/executor.py lines 110-131):
lower-case the stderr text, then a first-match-wins chain of substring
tests. -/
def handle_error (stderr : List Char) (session_id : Option (List Char)) : CliError :=
  let e := pyLower stderr
  if isSubstr "no conversation found with session id".data e then
    .sessionError ("Session not found: ".data ++ sessionIdText session_id)
  else if isSubstr "not a valid uuid".data e then
    .sessionError ("Invalid session ID format: ".data ++ sessionIdText session_id)
  else if isSubstr "rate limit".data e then
    .executionError "Rate limit exceeded".data
  else
    .executionError ("Claude CLI error: ".data ++ stderr)

/-! ## utils/retry.py -/

/-- Outcome of the wrapped call: the Python function either returns,
propagates an exception, or — when `max_attempts = 0` — falls off the
`for` loop and implicitly returns `None`. -/
inductive RetryResult (ε α : Type) : Type
  | ok (v : α)
  | raised (e : ε)
  | fellThrough
deriving DecidableEq

/-- One slept delay: `delay` as-is, or `delay * (0.5 + random.random())`
when jitter is enabled (`u` is the stream of `random.random()` draws,
indexed by the attempt on which the sleep happens). -/
def actualDelay (jitter : Bool) (u : ℚ) (delay : ℚ) : ℚ :=
  if jitter then delay * (1/2 + u) else delay

/-- The loop of `sync_wrapper` (utils/retry.py lines 60-88), structurally
recursive on the number of remaining attempts (`remaining =
max_attempts - attempt`, so Python's `attempt == max_attempts - 1` test
is `remaining = 1`).  The wrapped function is `fn`, indexed by attempt
number; `catchErr` is membership in the decorator's `exceptions` tuple.
Returns (outcome, number of calls made, list of slept delays in order).
On the last allowed attempt both a caught and an uncaught exception
propagate, which the single `remaining = 1` branch reflects. -/
def retryGo {ε α : Type} (fn : Nat → Except ε α) (catchErr : ε → Bool)
    (jitter : Bool) (u : Nat → ℚ) (expBase maxDelay : ℚ) :
    Nat → Nat → ℚ → RetryResult ε α × Nat × List ℚ
  | _, 0, _ => (.fellThrough, 0, [])
  | attempt, 1, _ =>
    match fn attempt with
    | .ok v => (.ok v, 1, [])
    | .error e => (.raised e, 1, [])
  | attempt, r + 2, delay =>
    match fn attempt with
    | .ok v => (.ok v, 1, [])
    | .error e =>
      if catchErr e then
        let actual := actualDelay jitter (u attempt) delay
        let rest := retryGo fn catchErr jitter u expBase maxDelay
          (attempt + 1) (r + 1) (min (delay * expBase) maxDelay)
        (rest.1, rest.2.1 + 1, actual :: rest.2.2)
      else (.raised e, 1, [])

/-- `retry_with_backoff(...)(fn)` applied as `sync_wrapper` with the
decorator's parameters. -/
def retrySync {ε α : Type} (fn : Nat → Except ε α) (catchErr : ε → Bool)
    (maxAttempts : Nat) (initialDelay maxDelay expBase : ℚ)
    (jitter : Bool) (u : Nat → ℚ) : RetryResult ε α × Nat × List ℚ :=
  retryGo fn catchErr jitter u expBase maxDelay 0 maxAttempts initialDelay

/-- The base-delay sequence: `delay` starts at `initialDelay` and is
updated by `delay = min(delay * exponential_base, max_delay)` after each
sleep. -/
def delaySeq (expBase maxDelay d : ℚ) : Nat → ℚ
  | 0 => d
  | n + 1 => min (delaySeq expBase maxDelay d n * expBase) maxDelay

/-- `execute_claude`'s retry wrapping (shell/executor.py line 133):
`@retry_with_backoff(max_attempts=3, exceptions=(ExecutionError,))`, the
remaining parameters at their defaults (initial 1.0, max 60.0, base 2.0,
jitter on).  The body of `execute_claude` — one spawn of the external
process — is the oracle `fn`. -/
def executeClaudeRetry {α : Type} (fn : Nat → Except CliError α) (u : Nat → ℚ) :
    RetryResult CliError α × Nat × List ℚ :=
  retrySync fn isExecutionError 3 1 60 2 true u

/-! ## workspace/manager.py

The filesystem is modelled as an association list from directory path to
the list of items recorded inside it (an event log per directory); the
handlers doing the importing (`FileHandler`, `GitHandler`) perform real
I/O, so their outcomes are oracles carried by `ImportEnv`. -/

/-- Filesystem model: directory path → items written into it. -/
structure FS : Type where
  entries : List (String × List String)
deriving DecidableEq

/-- Does the directory exist? -/
def FS.hasDir (fs : FS) (p : String) : Bool := fs.entries.any (fun kv => kv.1 == p)

/-- `tempfile.mkdtemp` / fresh `mkdir`: creates a new empty directory. -/
def FS.mkdirNew (fs : FS) (p : String) : FS := ⟨(p, []) :: fs.entries⟩

/-- `mkdir(parents=True, exist_ok=True)`: creates the directory if
missing, keeps it (and its contents) if present. -/
def FS.mkdirExistOk (fs : FS) (p : String) : FS :=
  if fs.hasDir p then fs else fs.mkdirNew p

/-- Record an item written inside directory `p`. -/
def FS.addItem (fs : FS) (p item : String) : FS :=
  ⟨fs.entries.map (fun kv => if kv.1 = p then (kv.1, kv.2 ++ [item]) else kv)⟩

/-- `shutil.rmtree(p, ignore_errors=True)`: remove the directory. -/
def FS.rmtree (fs : FS) (p : String) : FS :=
  ⟨fs.entries.filter (fun kv => kv.1 != p)⟩

/-- `WorkspaceManager` state: the `active_workspaces` registry
(id → root path) plus the filesystem. -/
structure MgrState : Type where
  activeWorkspaces : List (String × String)
  fs : FS
deriving DecidableEq

/-- Oracle outcomes for the effectful steps of `create_workspace`:
`copyFilesErr`/`copyFoldersErr`/`cloneReposErr` is `some msg` when the
corresponding handler call raises with that message, `gitInstalled` is
`GitHandler.is_git_installed()`, and `freshSuffix` is the unique suffix
chosen by `tempfile.mkdtemp` for an ephemeral workspace. -/
structure ImportEnv : Type where
  copyFilesErr : Option String
  copyFoldersErr : Option String
  cloneReposErr : Option String
  gitInstalled : Bool
  freshSuffix : String
deriving DecidableEq

/-- The base directory of the manager (`self.base_dir`). -/
def baseDir : String := "/tmp/claude_workspaces"

/-- The workspace root chosen by `create_workspace`: a stable id-derived
path for persistent workspaces, a uniquely-suffixed `mkdtemp` path
otherwise (manager.py lines 68-75). -/
def workspaceRoot (env : ImportEnv) (workspace_id : String) (persistent : Bool) :
    String :=
  if persistent then baseDir ++ "/persistent_" ++ workspace_id
  else baseDir ++ "/" ++ workspace_id ++ "_" ++ env.freshSuffix

/-- The `try` body of `create_workspace` (manager.py lines 79-124) after
the directory exists: write the metadata sidecar, then import files,
folders, repositories in that order; returns the filesystem reached and
the raised message, if any.  Successful handler calls record one item
per mapping. -/
def importPhase (fs0 : FS) (root : String) (env : ImportEnv)
    (files folders repos : List String) : FS × Option String :=
  let fs1 := fs0.addItem root ".workspace_metadata.json"
  if files.isEmpty = false ∧ env.copyFilesErr.isSome then
    (fs1, env.copyFilesErr)
  else
    let fs2 := files.foldl (fun a n => a.addItem root ("file:" ++ n)) fs1
    if folders.isEmpty = false ∧ env.copyFoldersErr.isSome then
      (fs2, env.copyFoldersErr)
    else
      let fs3 := folders.foldl (fun a n => a.addItem root ("folder:" ++ n)) fs2
      if repos.isEmpty then (fs3, none)
      else if env.gitInstalled = false then
        (fs3, some "Git is not installed or not in PATH")
      else match env.cloneReposErr with
        | some e => (fs3, some e)
        | none => (repos.foldl (fun a n => a.addItem root ("repo:" ++ n)) fs3, none)

/-- `WorkspaceManager.create_workspace` (manager.py lines 40-131): check
the registry for a duplicate id, create the directory, run the import
phase; on a raise, delete the directory if it exists and the workspace
is ephemeral, then re-raise; on success, register the id and return the
root. -/
def create_workspace (st : MgrState) (env : ImportEnv) (workspace_id : String)
    (files folders repos : List String) (persistent : Bool) :
    Except String String × MgrState :=
  if (st.activeWorkspaces.lookup workspace_id).isSome then
    (.error ("Workspace '" ++ workspace_id ++ "' already exists"), st)
  else
    let root := workspaceRoot env workspace_id persistent
    let fs1 := if persistent then st.fs.mkdirExistOk root else st.fs.mkdirNew root
    match importPhase fs1 root env files folders repos with
    | (fs2, some e) =>
      let fs3 := if fs2.hasDir root ∧ persistent = false then fs2.rmtree root else fs2
      (.error e, ⟨st.activeWorkspaces, fs3⟩)
    | (fs2, none) =>
      (.ok root, ⟨(workspace_id, root) :: st.activeWorkspaces, fs2⟩)

/-! ## agent_runner.py -/

/-- The parsed response dictionary, as far as `run_agent_with_io` reads
it: `response["session_id"]` and `response["result"]` (KeyError when
absent) and `response.get("total_cost_usd", 0.0)`. -/
structure Resp : Type where
  sessionId? : Option String
  result? : Option String
  totalCostUsd : ℚ
deriving DecidableEq

/-- `AgentRunResult` (agent_runner.py lines 15-25). -/
structure AgentRunResult : Type where
  success : Bool
  session_id : String
  text_output : String
  cost_usd : ℚ
  files_created : List String
  folders_created : List String
  workspace_path : String
  error : Option String
deriving DecidableEq

/-- The result built by the `except` block of `run_agent_with_io`
(agent_runner.py lines 192-201): failure flag, error message, empty
outputs, `workspace_path or Path("/tmp")`. -/
def failureResult (e : String) (ws : Option String) : AgentRunResult :=
  ⟨false, "", "", 0, [], [], ws.getD "/tmp", some e⟩

/-- Oracle outcomes for the effectful stages of `run_agent_with_io`:
workspace creation, the `execute_claude` call, the output-harvesting
copies, and the final `cleanup_workspace` call (whose own internal
failures it swallows, but which can still raise while reading
metadata). -/
structure RunEnv : Type where
  createResult : Except String String
  execResult : Except String Resp
  harvestResult : Except String (List String × List String)
  cleanupResult : Except String Bool

/-- `run_agent_with_io` (agent_runner.py lines 28-201): the whole staged
call lives in one `try`; any raise lands in the catch-all `except
Exception` and is converted into a failure `AgentRunResult` (the
best-effort cleanup in the error path is itself guarded and can never
mask the error). -/
def run_agent_with_io (env : RunEnv) (cleanup : Bool) : AgentRunResult :=
  match env.createResult with
  | .error e => failureResult e none
  | .ok workspace_path =>
    match env.execResult with
    | .error e => failureResult e (some workspace_path)
    | .ok response =>
      match env.harvestResult with
      | .error e => failureResult e (some workspace_path)
      | .ok (files_created, folders_created) =>
        match response.sessionId?, response.result? with
        | some sid, some txt =>
          let result : AgentRunResult :=
            ⟨true, sid, txt, response.totalCostUsd, files_created,
              folders_created, workspace_path, none⟩
          if cleanup then
            match env.cleanupResult with
            | .error e => failureResult e (some workspace_path)
            | .ok _ => result
          else result
        | none, _ => failureResult "'session_id'" (some workspace_path)
        | some _, none => failureResult "'result'" (some workspace_path)

/-! ## Lemmas: retry backoff -/

theorem delaySeq_shift (b M d : ℚ) :
    ∀ n, delaySeq b M (min (d * b) M) n = delaySeq b M d (n + 1)
  | 0 => rfl
  | n + 1 => by
    simp only [delaySeq, delaySeq_shift b M d n]

theorem sleptCons (jitter : Bool) (u : Nat → ℚ) (b M d : ℚ) (a k : Nat) :
    actualDelay jitter (u a) d ::
      (List.range k).map
        (fun n => actualDelay jitter (u (a + 1 + n)) (delaySeq b M (min (d * b) M) n)) =
    (List.range (k + 1)).map
      (fun n => actualDelay jitter (u (a + n)) (delaySeq b M d n)) := by
  rw [List.range_succ_eq_map, List.map_cons, List.map_map]
  refine congrArg₂ _ rfl ?_
  refine congrArg (fun f => List.map f (List.range k)) ?_
  funext n
  have h1 : a + 1 + n = a + (n + 1) := by omega
  simp only [Function.comp, h1, delaySeq_shift, Nat.succ_eq_add_one]

theorem retryGo_ok {ε α : Type} (fn : Nat → Except ε α) (catchErr : ε → Bool)
    (jitter : Bool) (u : Nat → ℚ) (b M : ℚ) (v : α) :
    ∀ (k a r : Nat) (d : ℚ), k < r →
      (∀ i, i < k → ∃ e, fn (a + i) = .error e ∧ catchErr e = true) →
      fn (a + k) = .ok v →
      retryGo fn catchErr jitter u b M a r d =
        (.ok v, k + 1,
          (List.range k).map (fun n => actualDelay jitter (u (a + n)) (delaySeq b M d n))) := by
  intro k
  induction k with
  | zero =>
    intro a r d hr hfail hok
    rw [Nat.add_zero] at hok
    match r, hr with
    | 1, _ => simp [retryGo, hok]
    | r + 2, _ => simp [retryGo, hok]
  | succ k ih =>
    intro a r d hr hfail hok
    match r, hr with
    | 1, hr => omega
    | r + 2, _ =>
      obtain ⟨e, he, hce⟩ := hfail 0 (Nat.succ_pos k)
      rw [Nat.add_zero] at he
      have ihr := ih (a + 1) (r + 1) (min (d * b) M) (by omega)
        (fun i hi => by
          obtain ⟨e', he', hc'⟩ := hfail (i + 1) (by omega)
          have hx : a + 1 + i = a + (i + 1) := by omega
          exact ⟨e', by rw [hx]; exact he', hc'⟩)
        (by
          have hx : a + 1 + k = a + (k + 1) := by omega
          rw [hx]; exact hok)
      simp only [retryGo, he, hce, if_true, ihr]
      rw [← sleptCons]

theorem retryGo_uncatch {ε α : Type} (fn : Nat → Except ε α) (catchErr : ε → Bool)
    (jitter : Bool) (u : Nat → ℚ) (b M : ℚ) (e : ε) :
    ∀ (k a r : Nat) (d : ℚ), k < r →
      (∀ i, i < k → ∃ e', fn (a + i) = .error e' ∧ catchErr e' = true) →
      fn (a + k) = .error e → catchErr e = false →
      retryGo fn catchErr jitter u b M a r d =
        (.raised e, k + 1,
          (List.range k).map (fun n => actualDelay jitter (u (a + n)) (delaySeq b M d n))) := by
  intro k
  induction k with
  | zero =>
    intro a r d hr hfail herr hc
    rw [Nat.add_zero] at herr
    match r, hr with
    | 1, _ => simp [retryGo, herr]
    | r + 2, _ => simp [retryGo, herr, hc]
  | succ k ih =>
    intro a r d hr hfail herr hc
    match r, hr with
    | 1, hr => omega
    | r + 2, _ =>
      obtain ⟨e', he', hce'⟩ := hfail 0 (Nat.succ_pos k)
      rw [Nat.add_zero] at he'
      have ihr := ih (a + 1) (r + 1) (min (d * b) M) (by omega)
        (fun i hi => by
          obtain ⟨e'', he'', hc''⟩ := hfail (i + 1) (by omega)
          have hx : a + 1 + i = a + (i + 1) := by omega
          exact ⟨e'', by rw [hx]; exact he'', hc''⟩)
        (by
          have hx : a + 1 + k = a + (k + 1) := by omega
          rw [hx]; exact herr) hc
      simp only [retryGo, he', hce', if_true, ihr]
      rw [← sleptCons]

theorem retryGo_exhaust {ε α : Type} (fn : Nat → Except ε α) (catchErr : ε → Bool)
    (jitter : Bool) (u : Nat → ℚ) (b M : ℚ) (e : ε) :
    ∀ (k a : Nat) (d : ℚ),
      (∀ i, i < k → ∃ e', fn (a + i) = .error e' ∧ catchErr e' = true) →
      fn (a + k) = .error e → catchErr e = true →
      retryGo fn catchErr jitter u b M a (k + 1) d =
        (.raised e, k + 1,
          (List.range k).map (fun n => actualDelay jitter (u (a + n)) (delaySeq b M d n))) := by
  intro k
  induction k with
  | zero =>
    intro a d hfail herr hc
    rw [Nat.add_zero] at herr
    simp [retryGo, herr]
  | succ k ih =>
    intro a d hfail herr hc
    obtain ⟨e', he', hce'⟩ := hfail 0 (Nat.succ_pos k)
    rw [Nat.add_zero] at he'
    have ihr := ih (a + 1) (min (d * b) M)
      (fun i hi => by
        obtain ⟨e'', he'', hc''⟩ := hfail (i + 1) (by omega)
        have hx : a + 1 + i = a + (i + 1) := by omega
        exact ⟨e'', by rw [hx]; exact he'', hc''⟩)
      (by
        have hx : a + 1 + k = a + (k + 1) := by omega
        rw [hx]; exact herr) hc
    simp only [retryGo, he', hce', if_true, ihr]
    rw [← sleptCons]

theorem delaySeq_nonneg (b M d : ℚ) (hb : 0 ≤ b) (hM : 0 ≤ M) (hd : 0 ≤ d) :
    ∀ n, 0 ≤ delaySeq b M d n
  | 0 => hd
  | n + 1 => le_min (mul_nonneg (delaySeq_nonneg b M d hb hM hd n) hb) hM

theorem delaySeq_closed_form (b M d : ℚ) (hb : 1 ≤ b) (hd : 0 ≤ d) (hdM : d ≤ M) :
    ∀ n, delaySeq b M d n = min (d * b ^ n) M
  | 0 => by simp [delaySeq, min_eq_left hdM]
  | n + 1 => by
    have hM : (0:ℚ) ≤ M := le_trans hd hdM
    have ih := delaySeq_closed_form b M d hb hd hdM n
    simp only [delaySeq, ih]
    rcases le_or_lt (d * b ^ n) M with h | h
    · rw [min_eq_left h, pow_succ, ← mul_assoc]
    · have hbM : M ≤ M * b := le_mul_of_one_le_right hM hb
      have h2 : M * b ≤ d * b ^ n * b :=
        mul_le_mul_of_nonneg_right h.le (le_trans zero_le_one hb)
      rw [min_eq_right h.le, min_eq_right hbM]
      have h3 : M ≤ d * b ^ (n + 1) := by
        calc M ≤ M * b := hbM
          _ ≤ d * b ^ n * b := h2
          _ = d * b ^ (n + 1) := by rw [pow_succ, mul_assoc]
      exact (min_eq_right h3).symm

/-- C4: an invocation of `execute_claude` that fails with `SessionError`
is never retried — the error propagates on its first occurrence (after
failing attempts consumed only by earlier `ExecutionError`s), while a
run whose three allowed attempts all fail with `ExecutionError` makes
exactly 3 calls and propagates the last error unchanged. -/
theorem executeClaude_retry_policy :
    (∀ (α : Type) (fn : Nat → Except CliError α) (u : Nat → ℚ) (k : Nat) (m : List Char),
      k < 3 →
      (∀ i, i < k → ∃ s, fn i = .error (.executionError s)) →
      fn k = .error (.sessionError m) →
      (executeClaudeRetry fn u).1 = .raised (.sessionError m) ∧
      (executeClaudeRetry fn u).2.1 = k + 1) ∧
    (∀ (α : Type) (fn : Nat → Except CliError α) (u : Nat → ℚ) (m : List Char),
      (∀ i, i < 2 → ∃ s, fn i = .error (.executionError s)) →
      fn 2 = .error (.executionError m) →
      (executeClaudeRetry fn u).1 = .raised (.executionError m) ∧
      (executeClaudeRetry fn u).2.1 = 3) := by
  constructor
  · intro α fn u k m hk hfail hsess
    have h := retryGo_uncatch fn isExecutionError true u 2 60 (.sessionError m) k 0 3 1 hk
      (fun i hi => by
        obtain ⟨s, hs⟩ := hfail i hi
        exact ⟨.executionError s, by simpa using hs, rfl⟩)
      (by simpa using hsess) rfl
    unfold executeClaudeRetry retrySync
    rw [h]
    exact ⟨rfl, rfl⟩
  · intro α fn u m hfail hexec
    have h := retryGo_exhaust fn isExecutionError true u 2 60 (.executionError m) 2 0 1
      (fun i hi => by
        obtain ⟨s, hs⟩ := hfail i hi
        exact ⟨.executionError s, by simpa using hs, rfl⟩)
      (by simpa using hexec) rfl
    unfold executeClaudeRetry retrySync
    rw [h]
    exact ⟨rfl, rfl⟩

theorem executeClaude_retry_policy_witness :
    (executeClaudeRetry
        (fun _ => (Except.error (CliError.sessionError "x".data) : Except CliError Unit))
        (fun _ => 0)).1 = .raised (.sessionError "x".data) ∧
    (executeClaudeRetry
        (fun _ => (Except.error (CliError.sessionError "x".data) : Except CliError Unit))
        (fun _ => 0)).2.1 = 1 :=
  executeClaude_retry_policy.1 Unit
    (fun _ => .error (.sessionError "x".data)) (fun _ => 0) 0 "x".data
    (by omega) (fun i hi => absurd hi (by omega)) rfl

/-- C5: the retry wrapper returns the success value after exactly k+1
calls when attempts 0..k-1 fail with a retryable error and attempt k
succeeds; a function failing retryably on every allowed attempt raises
after exactly `maxAttempts` calls; with jitter disabled the slept delays
follow `initialDelay * base^n` capped at `maxDelay`. -/
theorem retry_with_backoff_contract :
    (∀ (ε α : Type) (fn : Nat → Except ε α) (catchErr : ε → Bool)
        (maxA : Nat) (init M b : ℚ) (u : Nat → ℚ) (k : Nat) (v : α),
      k < maxA →
      (∀ i, i < k → ∃ e, fn i = .error e ∧ catchErr e = true) →
      fn k = .ok v →
      retrySync fn catchErr maxA init M b false u =
        (.ok v, k + 1, (List.range k).map (delaySeq b M init))) ∧
    (∀ (ε α : Type) (fn : Nat → Except ε α) (catchErr : ε → Bool)
        (k : Nat) (init M b : ℚ) (u : Nat → ℚ) (e : ε),
      (∀ i, i < k → ∃ e', fn i = .error e' ∧ catchErr e' = true) →
      fn k = .error e → catchErr e = true →
      retrySync fn catchErr (k + 1) init M b false u =
        (.raised e, k + 1, (List.range k).map (delaySeq b M init))) ∧
    (∀ (init M b : ℚ), 1 ≤ b → 0 ≤ init → init ≤ M →
      ∀ n, delaySeq b M init n = min (init * b ^ n) M) := by
  refine ⟨?_, ?_, ?_⟩
  · intro ε α fn catchErr maxA init M b u k v hk hfail hok
    have h := retryGo_ok fn catchErr false u b M v k 0 maxA init hk
      (fun i hi => by
        obtain ⟨e, he, hc⟩ := hfail i hi
        exact ⟨e, by simpa using he, hc⟩)
      (by simpa using hok)
    unfold retrySync
    rw [h]
    simp [actualDelay]
  · intro ε α fn catchErr k init M b u e hfail herr hc
    have h := retryGo_exhaust fn catchErr false u b M e k 0 init
      (fun i hi => by
        obtain ⟨e', he, hc'⟩ := hfail i hi
        exact ⟨e', by simpa using he, hc'⟩)
      (by simpa using herr) hc
    unfold retrySync
    rw [h]
    simp [actualDelay]
  · intro init M b hb hd hdM n
    exact delaySeq_closed_form b M init hb hd hdM n

theorem retry_with_backoff_contract_witness :
    retrySync (fun i => if i = 0 then (Except.error "e" : Except String Nat) else .ok 42)
        (fun _ => true) 3 1 60 2 false (fun _ => 0) =
      (.ok 42, 2, (List.range 1).map (delaySeq 2 60 1)) :=
  retry_with_backoff_contract.1 String Nat
    (fun i => if i = 0 then .error "e" else .ok 42) (fun _ => true)
    3 1 60 2 (fun _ => 0) 1 42 (by omega)
    (fun i hi => ⟨"e", by interval_cases i <;> simp, rfl⟩) (by simp)

/-- C6 counterexample: with jitter enabled the code sleeps
`delay * (0.5 + random.random())`, whose factor ranges over [0.5, 1.5);
with the draw 0.75 the first slept delay is 5/4, strictly greater than
the current base delay 1 — refuting the claim that the factor is drawn
from [0.5, 1.0] and that the slept delay never exceeds the base delay. -/
theorem retry_jitter_exceeds_delay :
    retrySync (fun _ => (Except.error (CliError.executionError []) : Except CliError Unit))
        isExecutionError 2 1 60 2 true (fun _ => 3/4) =
      (.raised (.executionError []), 2, [5/4]) ∧
    ¬ ((5 : ℚ)/4 ≤ 1 * 1) := by
  constructor
  · have h := retryGo_exhaust
      (fun _ => (Except.error (CliError.executionError []) : Except CliError Unit))
      isExecutionError true (fun _ => 3/4) 2 60 (.executionError []) 1 0 1
      (fun i _ => ⟨.executionError [], rfl, rfl⟩) rfl rfl
    unfold retrySync
    rw [h]
    norm_num [actualDelay, delaySeq, List.range_succ]
  · norm_num

/-- C6 amended: with jitter enabled the slept delay before each retry is
the current base delay times `0.5 + u`, where `u` is the uniform draw in
[0, 1); the factor therefore lies in [0.5, 1.5), so each slept delay is
at least half and at most one-and-a-half times the base delay (it can
exceed the base delay, unlike the spec's [0.5, 1.0] claim). -/
theorem retry_jitter_factor :
    ∀ (ε α : Type) (fn : Nat → Except ε α) (catchErr : ε → Bool)
      (k : Nat) (init M b : ℚ) (u : Nat → ℚ) (e : ε),
      (∀ i, i < k → ∃ e', fn i = .error e' ∧ catchErr e' = true) →
      fn k = .error e → catchErr e = true →
      retrySync fn catchErr (k + 1) init M b true u =
        (.raised e, k + 1,
          (List.range k).map (fun n => delaySeq b M init n * (1/2 + u n))) ∧
      (∀ n, 0 ≤ u n → u n < 1 → 0 ≤ delaySeq b M init n →
        delaySeq b M init n / 2 ≤ delaySeq b M init n * (1/2 + u n) ∧
        delaySeq b M init n * (1/2 + u n) ≤ 3/2 * delaySeq b M init n) := by
  intro ε α fn catchErr k init M b u e hfail herr hc
  constructor
  · have h := retryGo_exhaust fn catchErr true u b M e k 0 init
      (fun i hi => by
        obtain ⟨e', he, hc'⟩ := hfail i hi
        exact ⟨e', by simpa using he, hc'⟩)
      (by simpa using herr) hc
    unfold retrySync
    rw [h]
    simp [actualDelay]
  · intro n hu0 hu1 hd
    constructor
    · nlinarith [mul_nonneg hd hu0]
    · nlinarith [mul_nonneg hd (by linarith : (0:ℚ) ≤ 1 - u n)]

theorem retry_jitter_factor_witness :
    retrySync (fun _ => (Except.error "e" : Except String Unit)) (fun _ => true)
        2 1 60 2 true (fun _ => 3/4) =
      (.raised "e", 2, (List.range 1).map (fun n => delaySeq 2 60 1 n * (1/2 + 3/4))) :=
  (retry_jitter_factor String Unit (fun _ => .error "e") (fun _ => true)
    1 1 60 2 (fun _ => 3/4) "e"
    (fun i hi => ⟨"e", rfl, rfl⟩) rfl rfl).1

/-! ## Lemmas: line splitting and stripping -/

theorem splitSepAux_append_sep (sep : Char) :
    ∀ xs ys : List Char,
      splitSepAux sep (xs ++ sep :: ys) =
        ((splitSepAux sep xs).1, (splitSepAux sep xs).2 ++ splitSep sep ys)
  | [], ys => by simp [splitSepAux, splitSep]
  | c :: xs, ys => by
    have ih := splitSepAux_append_sep sep xs ys
    by_cases hc : c = sep
    · simp [splitSepAux, ih, hc]
    · simp [splitSepAux, ih, hc]

theorem splitSep_append_sep (sep : Char) (xs ys : List Char) :
    splitSep sep (xs ++ sep :: ys) = splitSep sep xs ++ splitSep sep ys := by
  simp [splitSep, splitSepAux_append_sep]

theorem splitSep_cons_sep (sep : Char) (cs : List Char) :
    splitSep sep (sep :: cs) = [] :: splitSep sep cs := by
  simp [splitSep, splitSepAux]

theorem splitSep_cons_nonsep (sep c : Char) (cs : List Char) (hc : c ≠ sep) :
    splitSep sep (c :: cs) =
      (c :: (splitSepAux sep cs).1) :: (splitSepAux sep cs).2 := by
  simp [splitSep, splitSepAux, hc]

theorem joinSep_cons₂ (sep : Char) (l l2 : List Char) (ls : List (List Char)) :
    joinSep sep (l :: l2 :: ls) = l ++ sep :: joinSep sep (l2 :: ls) := rfl

theorem joinSep_splitSep (sep : Char) : ∀ s : List Char, joinSep sep (splitSep sep s) = s
  | [] => rfl
  | c :: cs => by
    have ih := joinSep_splitSep sep cs
    have hcons : splitSep sep cs = (splitSepAux sep cs).1 :: (splitSepAux sep cs).2 := rfl
    by_cases hc : c = sep
    · rw [hc, splitSep_cons_sep, hcons, joinSep_cons₂, ← hcons, ih]
      rfl
    · rw [splitSep_cons_nonsep sep c cs hc]
      cases h2 : (splitSepAux sep cs).2 with
      | nil =>
        have ih' : (splitSepAux sep cs).1 = cs := by
          rw [hcons, h2] at ih
          simpa [joinSep] using ih
        simp [joinSep, ih']
      | cons l2 ls =>
        rw [hcons, h2] at ih
        rw [joinSep_cons₂] at ih
        rw [joinSep_cons₂, List.cons_append, ih]

theorem head?_dropWhile_not (p : Char → Bool) :
    ∀ (l : List Char) (c : Char), (l.dropWhile p).head? = some c → p c = false
  | [], c => by simp [List.dropWhile]
  | x :: l, c => by
    by_cases hx : p x = true
    · rw [List.dropWhile_cons, if_pos hx]
      exact head?_dropWhile_not p l c
    · rw [List.dropWhile_cons, if_neg hx]
      intro h
      obtain rfl : x = c := by simpa using h
      simpa using hx

theorem pyRStrip_cons (c : Char) (cs : List Char) :
    pyRStrip (c :: cs) =
      if pyRStrip cs = [] then (if pyIsSpace c then [] else [c])
      else c :: pyRStrip cs := by
  unfold pyRStrip
  rw [show (c :: cs).reverse = cs.reverse ++ [c] from by simp]
  rw [List.dropWhile_append]
  by_cases h : (cs.reverse.dropWhile pyIsSpace).isEmpty
  · rw [if_pos h]
    have h0 : cs.reverse.dropWhile pyIsSpace = [] := by
      cases hx : cs.reverse.dropWhile pyIsSpace
      · rfl
      · rw [hx] at h; simp at h
    rw [if_pos (by rw [h0]; rfl)]
    by_cases hc : pyIsSpace c <;> simp [List.dropWhile, hc]
  · rw [if_neg h]
    have h0 : ¬ (cs.reverse.dropWhile pyIsSpace).reverse = [] := by
      intro hx
      rw [show cs.reverse.dropWhile pyIsSpace = [] from by simpa using hx] at h
      simp at h
    rw [if_neg h0, List.reverse_append]
    rfl

theorem head?_pyRStrip (y : List Char)
    (h : ∀ c, y.head? = some c → pyIsSpace c = false) :
    (pyRStrip y).head? = y.head? := by
  cases y with
  | nil => rfl
  | cons c cs =>
    have hc : pyIsSpace c = false := h c rfl
    rw [pyRStrip_cons]
    by_cases h0 : pyRStrip cs = []
    · rw [if_pos h0, hc]
      rfl
    · rw [if_neg h0]
      rfl

theorem lineStartsBrace_iff (l : List Char) :
    lineStartsBrace l = true ↔ (pyLStrip l).head? = some '{' := by
  unfold lineStartsBrace pyStrip
  rw [head?_pyRStrip (pyLStrip l) (fun c hc => head?_dropWhile_not pyIsSpace l c hc)]
  exact decide_eq_true_iff

theorem lineStartsBrace_ws_cons (c : Char) (x : List Char) (hc : pyIsSpace c = true) :
    lineStartsBrace (c :: x) = lineStartsBrace x := by
  unfold lineStartsBrace pyStrip pyLStrip
  rw [List.dropWhile_cons, if_pos hc]

theorem lineStartsBrace_nil : lineStartsBrace [] = false := by decide

theorem lineStartsBrace_brace_cons (x : List Char) :
    lineStartsBrace ('{' :: x) = true := by
  rw [lineStartsBrace_iff]
  unfold pyLStrip
  rw [List.dropWhile_cons, if_neg (by decide)]
  rfl

theorem lines_lstrip_no_brace : ∀ s : List Char,
    (∀ l ∈ splitNl s, lineStartsBrace l = false) →
    ∀ l ∈ splitNl (pyLStrip s), lineStartsBrace l = false
  | [], h => h
  | c :: cs, h => by
    by_cases hc : pyIsSpace c
    · have hstep : pyLStrip (c :: cs) = pyLStrip cs := by
        unfold pyLStrip
        rw [List.dropWhile_cons, if_pos hc]
      rw [hstep]
      apply lines_lstrip_no_brace cs
      intro l hl
      by_cases hnl : c = '\n'
      · refine h l ?_
        rw [hnl, show splitNl ('\n' :: cs) = [] :: splitNl cs from splitSep_cons_sep '\n' cs]
        exact List.mem_cons_of_mem _ hl
      · rw [show splitNl (c :: cs) = (c :: (splitSepAux '\n' cs).1) :: (splitSepAux '\n' cs).2
          from splitSep_cons_nonsep '\n' c cs hnl] at h
        have hsplit : splitNl cs = (splitSepAux '\n' cs).1 :: (splitSepAux '\n' cs).2 := rfl
        rw [hsplit] at hl
        rcases List.mem_cons.mp hl with rfl | hl'
        · have h1 := h (c :: (splitSepAux '\n' cs).1) (List.mem_cons_self _ _)
          rw [lineStartsBrace_ws_cons c _ hc] at h1
          exact h1
        · exact h l (List.mem_cons_of_mem _ hl')
    · have hstep : pyLStrip (c :: cs) = c :: cs := by
        unfold pyLStrip
        rw [List.dropWhile_cons, if_neg hc]
      rw [hstep]
      exact h

theorem splitSepAux_take (sep : Char) :
    ∀ (y : List Char) (k : Nat),
      (splitSepAux sep (y.take k)).1 <+: (splitSepAux sep y).1 ∧
      ∀ l' ∈ (splitSepAux sep (y.take k)).2, ∃ l ∈ (splitSepAux sep y).2, l' <+: l
  | [], k => by simp [List.take_nil, splitSepAux]
  | _ :: _, 0 => by simp [List.take_zero, splitSepAux]
  | c :: cs, k + 1 => by
    have ih := splitSepAux_take sep cs k
    rw [List.take_succ_cons]
    by_cases hc : c = sep
    · constructor
      · simp [splitSepAux, hc]
      · intro l' hl'
        simp only [splitSepAux, hc, if_pos] at hl' ⊢
        rcases List.mem_cons.mp hl' with rfl | hl''
        · exact ⟨(splitSepAux sep cs).1, List.mem_cons_self _ _, ih.1⟩
        · obtain ⟨l, hl, hp⟩ := ih.2 _ hl''
          exact ⟨l, List.mem_cons_of_mem _ hl, hp⟩
    · constructor
      · simp only [splitSepAux, hc, if_neg, if_false]
        exact List.cons_prefix_cons.mpr ⟨rfl, ih.1⟩
      · intro l' hl'
        simp only [splitSepAux, hc, if_neg, if_false] at hl' ⊢
        exact ih.2 _ hl'

theorem lines_take (sep : Char) (y : List Char) (k : Nat) :
    ∀ l' ∈ splitSep sep (y.take k), ∃ l ∈ splitSep sep y, l' <+: l := by
  intro l' hl'
  have h := splitSepAux_take sep y k
  rcases List.mem_cons.mp hl' with rfl | hl''
  · exact ⟨(splitSepAux sep y).1, List.mem_cons_self _ _, h.1⟩
  · obtain ⟨l, hl, hp⟩ := h.2 _ hl''
    exact ⟨l, List.mem_cons_of_mem _ hl, hp⟩

theorem lines_of_isPre (sep : Char) {y' y : List Char} (hp : y' <+: y) :
    ∀ l' ∈ splitSep sep y', ∃ l ∈ splitSep sep y, l' <+: l := by
  rw [List.prefix_iff_eq_take.mp hp]
  exact lines_take sep y y'.length

theorem pyRStrip_isPre (s : List Char) : pyRStrip s <+: s := by
  have h := List.dropWhile_suffix (l := s.reverse) pyIsSpace
  have h2 := List.reverse_prefix.mpr h
  rwa [List.reverse_reverse] at h2

theorem lineStartsBrace_of_isPre (l' l : List Char) (hp : l' <+: l)
    (h : lineStartsBrace l = false) : lineStartsBrace l' = false := by
  obtain ⟨r, rfl⟩ := hp
  by_contra hb
  rw [Bool.not_eq_false, lineStartsBrace_iff] at hb
  have hfull : (pyLStrip (l' ++ r)).head? = some '{' := by
    unfold pyLStrip at hb ⊢
    rw [List.dropWhile_append]
    cases hdp : l'.dropWhile pyIsSpace with
    | nil => rw [hdp] at hb; simp at hb
    | cons d ds =>
      rw [if_neg (by simp)]
      rw [hdp] at hb
      obtain rfl : d = '{' := by simpa using hb
      rfl
  rw [← lineStartsBrace_iff] at hfull
  rw [h] at hfull
  exact Bool.false_ne_true hfull

theorem findJsonStart_none : ∀ L : List (List Char),
    (∀ l ∈ L, lineStartsBrace l = false) → findJsonStart L = none
  | [], _ => rfl
  | l :: L, h => by
    unfold findJsonStart
    rw [if_neg (by rw [h l (List.mem_cons_self _ _)]; exact Bool.false_ne_true)]
    exact findJsonStart_none L (fun x hx => h x (List.mem_cons_of_mem _ hx))

/-- C9: for every output text none of whose lines begins (after
trimming) with `{`, `_sanitize_output` finds no JSON start line and
raises `ExecutionError("No JSON found in output")`; no JSON text is
returned. -/
theorem sanitize_output_no_brace_line :
    ∀ out : List Char,
      (∀ l ∈ splitNl out, lineStartsBrace l = false) →
      sanitize_output out = .error "No JSON found in output".data := by
  intro out h
  have h1 := lines_lstrip_no_brace out h
  have h2 : ∀ l ∈ splitNl (pyStrip out), lineStartsBrace l = false := by
    intro l hl
    obtain ⟨l0, hl0, hp⟩ := lines_of_isPre '\n' (pyRStrip_isPre (pyLStrip out)) l hl
    exact lineStartsBrace_of_isPre l l0 hp (h1 l0 hl0)
  unfold sanitize_output
  rw [findJsonStart_none _ h2]

theorem sanitize_output_no_brace_line_witness :
    sanitize_output "hello\nworld".data = .error "No JSON found in output".data :=
  sanitize_output_no_brace_line "hello\nworld".data (by decide)

theorem splitNl_append_sep (xs ys : List Char) :
    splitNl (xs ++ '\n' :: ys) = splitNl xs ++ splitNl ys :=
  splitSep_append_sep '\n' xs ys

theorem joinNl_splitNl (s : List Char) : joinNl (splitNl s) = s :=
  joinSep_splitSep '\n' s

theorem isSuffix_getLast? {t s : List Char} (h : t <:+ s) (hne : t ≠ []) :
    t.getLast? = s.getLast? := by
  obtain ⟨w, rfl⟩ := h
  rw [List.getLast?_append]
  cases ht : t.getLast? with
  | none => exact absurd (List.getLast?_eq_none.mp ht) hne
  | some c => rfl

theorem pyLStrip_append_nonws (x y : List Char)
    (hy : ∀ c, y.head? = some c → pyIsSpace c = false) :
    pyLStrip (x ++ y) = pyLStrip x ++ y := by
  unfold pyLStrip
  rw [List.dropWhile_append]
  by_cases h : (x.dropWhile pyIsSpace).isEmpty
  · rw [if_pos h]
    have hx : x.dropWhile pyIsSpace = [] := by
      cases hx : x.dropWhile pyIsSpace
      · rfl
      · rw [hx] at h; simp at h
    rw [hx, List.nil_append]
    cases y with
    | nil => rfl
    | cons c cs => rw [List.dropWhile_cons, if_neg (by simp [hy c rfl])]
  · rw [if_neg h]

theorem pyRStrip_append_nonws (x y : List Char) (c : Char)
    (hx : x.getLast? = some c) (hc : pyIsSpace c = false) :
    pyRStrip (x ++ y) = x ++ pyRStrip y := by
  unfold pyRStrip
  rw [List.reverse_append, List.dropWhile_append]
  have hrx : x.reverse.dropWhile pyIsSpace = x.reverse := by
    cases hxr : x.reverse with
    | nil => rfl
    | cons d ds =>
      have hd : d = c := by
        have h1 := List.head?_reverse x
        rw [hxr, hx] at h1
        simpa using h1
      rw [List.dropWhile_cons, if_neg (by simp [hd, hc])]
  by_cases h : (y.reverse.dropWhile pyIsSpace).isEmpty
  · rw [if_pos h]
    have hy0 : y.reverse.dropWhile pyIsSpace = [] := by
      cases hy : y.reverse.dropWhile pyIsSpace
      · rfl
      · rw [hy] at h; simp at h
    rw [hrx, List.reverse_reverse, hy0]
    simp
  · rw [if_neg h, List.reverse_append, List.reverse_reverse]

theorem pyStrip_decompose (pre obj suf : List Char)
    (hobj1 : obj.head? = some '{') (hobj2 : obj.getLast? = some '}') :
    pyStrip (pre ++ obj ++ suf) = pyLStrip pre ++ obj ++ pyRStrip suf := by
  unfold pyStrip
  have h1 : pyLStrip ((pre ++ obj) ++ suf) = pyLStrip pre ++ (obj ++ suf) := by
    rw [List.append_assoc]
    refine pyLStrip_append_nonws pre (obj ++ suf) ?_
    intro c hc
    rw [List.head?_append, hobj1] at hc
    obtain rfl : '{' = c := by simpa using hc
    decide
  rw [h1, ← List.append_assoc]
  refine pyRStrip_append_nonws (pyLStrip pre ++ obj) suf '}' ?_ (by decide)
  rw [List.getLast?_append, hobj2]
  rfl

theorem collectBalanced_exact :
    ∀ (L t : List (List Char)) (c : Int), L ≠ [] →
      (∀ k, 0 < k → k < L.length → c + lineBal (L.take k) ≠ 0) →
      c + lineBal L = 0 →
      collectBalanced (L ++ t) c = L
  | [], _, _, h, _, _ => absurd rfl h
  | [l], t, c, _, _, htot => by
    have h0 : c + braceDelta l = 0 := by
      simpa [lineBal] using htot
    simp [collectBalanced, h0]
  | l1 :: l2 :: L, t, c, _, hmid, htot => by
    have h1 : ¬ (c + braceDelta l1 = 0) := by
      have h := hmid 1 (by omega) (by simp)
      simpa [lineBal] using h
    have hrec := collectBalanced_exact (l2 :: L) t (c + braceDelta l1) (by simp)
      (fun k hk hk2 => by
        have h := hmid (k + 1) (by omega) (by simpa using hk2)
        rw [List.take_succ_cons] at h
        simp only [lineBal, List.map_cons, List.sum_cons] at h ⊢
        omega)
      (by
        simp only [lineBal, List.map_cons, List.sum_cons] at htot ⊢
        omega)
    rw [List.cons_append]
    rw [show collectBalanced (l1 :: ((l2 :: L) ++ t)) c =
      l1 :: (if c + braceDelta l1 = 0 then []
        else collectBalanced ((l2 :: L) ++ t) (c + braceDelta l1)) from rfl]
    rw [if_neg h1, hrec]

theorem findJsonStart_append (A r : List (List Char))
    (h : ∀ l ∈ A, lineStartsBrace l = false) :
    findJsonStart (A ++ r) = findJsonStart r := by
  induction A with
  | nil => rfl
  | cons l A ih =>
    rw [List.cons_append]
    rw [show findJsonStart (l :: (A ++ r)) =
      if lineStartsBrace l = true then some (l :: (A ++ r))
      else findJsonStart (A ++ r) from rfl]
    rw [if_neg (by simp [h l (List.mem_cons_self _ _)])]
    exact ih (fun x hx => h x (List.mem_cons_of_mem _ hx))

/-- C2 counterexample: for an arbitrary non-JSON prefix the claim fails:
the prefix `foo` does not end with a newline, so it merges with the
object's first line, no line's trimmed text begins with `{`, and
extraction raises `ExecutionError` instead of returning the object. -/
theorem sanitize_output_prefix_merge_fails :
    sanitize_output ("foo".data ++ "\x7b\"a\": 1\x7d".data ++ []) =
      .error "No JSON found in output".data := by
  decide

/-- C2 amended: extraction returns the object text exactly — hence
parsing the extracted text trivially yields the same JSON value as
parsing the object alone — provided the prefix ends at a line boundary
(empty or newline-terminated), no prefix line's trimmed text begins with
`{`, the object begins with `{` and ends with `}` (nesting depth and
embedded newlines arbitrary), the object's running per-line brace
balance stays nonzero until it returns to zero on the last line, and the
suffix begins on a new line (empty or starting with a newline).  Without
these conditions the claim fails, as the counterexample shows. -/
theorem sanitize_output_extracts :
    ∀ (pre obj suf : List Char),
      (pre = [] ∨ pre.getLast? = some '\n') →
      (∀ l ∈ splitNl pre, lineStartsBrace l = false) →
      obj.head? = some '{' →
      obj.getLast? = some '}' →
      (∀ k, k < (splitNl obj).length → k = 0 ∨ lineBal ((splitNl obj).take k) ≠ 0) →
      lineBal (splitNl obj) = 0 →
      (suf = [] ∨ suf.head? = some '\n') →
      sanitize_output (pre ++ obj ++ suf) = .ok obj := by
  intro pre obj suf hpre hpreL hobj1 hobj2 hmid htot hsuf
  have hstrip := pyStrip_decompose pre obj suf hobj1 hobj2
  have hsufT : ∃ T, splitNl (obj ++ pyRStrip suf) = splitNl obj ++ T := by
    rcases hsuf with rfl | hhead
    · exact ⟨[], by simp [pyRStrip]⟩
    · obtain ⟨s2, rfl⟩ : ∃ s2, suf = '\n' :: s2 := by
        cases suf with
        | nil => simp at hhead
        | cons a s2 =>
          obtain rfl : a = '\n' := by simpa using hhead
          exact ⟨s2, rfl⟩
      rw [pyRStrip_cons]
      by_cases h0 : pyRStrip s2 = []
      · rw [if_pos h0, if_pos (by decide)]
        exact ⟨[], by simp⟩
      · rw [if_neg h0]
        exact ⟨splitNl (pyRStrip s2), splitNl_append_sep obj (pyRStrip s2)⟩
  obtain ⟨T, hT⟩ := hsufT
  have hpL : ∀ l ∈ splitNl (pyLStrip pre), lineStartsBrace l = false :=
    lines_lstrip_no_brace pre hpreL
  have hAll : ∃ A, splitNl (pyStrip (pre ++ obj ++ suf)) = A ++ (splitNl obj ++ T) ∧
      ∀ l ∈ A, lineStartsBrace l = false := by
    rw [hstrip]
    by_cases hpl0 : pyLStrip pre = []
    · refine ⟨[], ?_, by simp⟩
      rw [hpl0]
      simpa using hT
    · have hend : (pyLStrip pre).getLast? = some '\n' := by
        rcases hpre with rfl | hlast
        · exact absurd rfl hpl0
        · exact (isSuffix_getLast? (List.dropWhile_suffix pyIsSpace) hpl0).trans hlast
      obtain ⟨p2, hp2⟩ : ∃ p2, pyLStrip pre = p2 ++ ['\n'] := by
        refine ⟨(pyLStrip pre).dropLast, ?_⟩
        have h := List.dropLast_append_getLast hpl0
        have h2 : (pyLStrip pre).getLast hpl0 = '\n' := by
          have h3 := List.getLast?_eq_getLast (pyLStrip pre) hpl0
          rw [hend] at h3
          exact (Option.some.inj h3).symm
        rw [← h2]
        exact h.symm
      refine ⟨splitNl p2, ?_, ?_⟩
      · rw [hp2]
        have hassoc : ((p2 ++ ['\n']) ++ obj) ++ pyRStrip suf =
            p2 ++ '\n' :: (obj ++ pyRStrip suf) := by
          simp [List.append_assoc]
        rw [hassoc, splitNl_append_sep, hT]
      · intro l hl
        refine hpL l ?_
        rw [hp2, show p2 ++ ['\n'] = p2 ++ '\n' :: ([] : List Char) from rfl,
          splitNl_append_sep]
        exact List.mem_append_left _ hl
  obtain ⟨A, hA, hAf⟩ := hAll
  obtain ⟨or, rfl⟩ : ∃ or, obj = '{' :: or := by
    cases obj with
    | nil => simp at hobj1
    | cons a or =>
      obtain rfl : a = '{' := by simpa using hobj1
      exact ⟨or, rfl⟩
  have hobjsplit : splitNl ('{' :: or) =
      ('{' :: (splitSepAux '\n' or).1) :: (splitSepAux '\n' or).2 :=
    splitSep_cons_nonsep '\n' '{' or (by decide)
  unfold sanitize_output
  rw [hA, findJsonStart_append A _ hAf, hobjsplit, List.cons_append]
  rw [show findJsonStart (('{' :: (splitSepAux '\n' or).1) ::
      ((splitSepAux '\n' or).2 ++ T)) =
      some (('{' :: (splitSepAux '\n' or).1) :: ((splitSepAux '\n' or).2 ++ T)) from by
    unfold findJsonStart
    rw [if_pos (lineStartsBrace_brace_cons _)]]
  show Except.ok (joinNl (collectBalanced
    (('{' :: (splitSepAux '\n' or).1) :: ((splitSepAux '\n' or).2 ++ T)) 0)) = _
  rw [← List.cons_append, ← hobjsplit]
  rw [collectBalanced_exact (splitNl ('{' :: or)) T 0
    (by rw [hobjsplit]; simp)
    (fun k hk hk2 => by
      have h := (hmid k hk2).resolve_left (by omega)
      rw [Int.zero_add]
      exact h)
    (by rw [Int.zero_add]; exact htot)]
  rw [joinNl_splitNl]

theorem sanitize_output_extracts_witness :
    sanitize_output ("banner text\n".data ++
        "\x7b\"a\":\n \x7b\"b\":\n  \x7b\"c\":\n   \x7b\"d\":\n    \x7b\"e\": 1\x7d\x7d\x7d\x7d\x7d".data ++
        "\ndone".data) =
      .ok "\x7b\"a\":\n \x7b\"b\":\n  \x7b\"c\":\n   \x7b\"d\":\n    \x7b\"e\": 1\x7d\x7d\x7d\x7d\x7d".data :=
  sanitize_output_extracts "banner text\n".data
    "\x7b\"a\":\n \x7b\"b\":\n  \x7b\"c\":\n   \x7b\"d\":\n    \x7b\"e\": 1\x7d\x7d\x7d\x7d\x7d".data
    "\ndone".data
    (by decide) (by decide) (by decide) (by decide) (by decide) (by decide) (by decide)

/-! ## Lemmas: path containment -/

theorem initialSlashes_pos (s : List Char) (h : s.head? = some '/') :
    1 ≤ initialSlashes s := by
  unfold initialSlashes
  rw [if_neg (by simp [h])]
  split <;> omega

theorem pyNormpath_absolute (s : List Char) (h : s.head? = some '/') :
    (pyNormpath s).head? = some '/' := by
  have hne : s ≠ [] := fun hs => by simp [hs] at h
  have h1 := initialSlashes_pos s h
  obtain ⟨m, hm⟩ : ∃ m, initialSlashes s = m + 1 := ⟨initialSlashes s - 1, by omega⟩
  have hres : normRes s ≠ [] ∧ (normRes s).head? = some '/' := by
    unfold normRes
    rw [hm, List.replicate_succ]
    exact ⟨by simp, by simp⟩
  rw [pyNormpath, if_neg hne, if_neg hres.1]
  exact hres.2

/-- C1 counterexample: the destination `a/../b` contains a
parent-traversal segment, yet `resolve_dest_path` normalizes it to `b`
before checking and accepts it, returning the path `/ws/b` instead of
raising — so path containment does not reject every string containing a
`..` segment. -/
theorem resolve_dest_path_accepts_traversal :
    hasParentSegment "a/../b".data = true ∧
    resolve_dest_path "/ws".data "a/../b".data = .ok "/ws/b".data := by
  exact ⟨by decide, by decide⟩

/-- C1 amended: every absolute destination is rejected by
`resolve_dest_path` (the normalized path keeps its leading slash), and
every destination whose normalized form still contains `..` is rejected;
mapping validation (`FileMapping.validate`) rejects every raw
destination containing `..` or starting with `/`; and any destination
`resolve_dest_path` accepts has passed the post-resolution re-check that
its resolved form lies under the workspace root.  A traversal segment
that disappears under normalization (for example `a/../b`) is accepted
by `resolve_dest_path`, though mapping validation still rejects it. -/
theorem path_containment_rejection :
    ∀ (workspace_root dest : List Char),
      (dest.head? = some '/' → isErr (resolve_dest_path workspace_root dest) = true) ∧
      (isSubstr ['.', '.'] (pyNormpath dest) = true →
        isErr (resolve_dest_path workspace_root dest) = true) ∧
      (isSubstr ['.', '.'] dest = true ∨ dest.head? = some '/' →
        fileMappingValidate true true true dest =
          .error ("Invalid destination path: ".data ++ dest)) ∧
      (∀ p, resolve_dest_path workspace_root dest = .ok p →
        p = pathJoin workspace_root (pyNormpath dest) ∧
        relativeToOk (pyNormpath workspace_root) (pyNormpath p) = true) := by
  intro workspace_root dest
  refine ⟨?_, ?_, ?_, ?_⟩
  · intro h
    have ha := pyNormpath_absolute dest h
    simp [resolve_dest_path, ha, isErr]
  · intro h
    rw [resolve_dest_path, if_pos (Or.inr h)]
    rfl
  · intro h
    rw [fileMappingValidate]
    simp only [Bool.true_eq_false, if_neg, if_false]
    rw [if_pos h]
  · intro p hp
    rw [resolve_dest_path] at hp
    split at hp
    · exact absurd hp (by simp)
    · split at hp
      · rename_i hrel
        obtain rfl : pathJoin workspace_root (pyNormpath dest) = p :=
          Except.ok.inj hp
        exact ⟨rfl, by exact_mod_cast hrel⟩
      · exact absurd hp (by simp)

theorem path_containment_rejection_witness :
    isErr (resolve_dest_path "/ws".data "/etc/passwd".data) = true ∧
    fileMappingValidate true true true "../x".data =
      .error ("Invalid destination path: ".data ++ "../x".data) :=
  ⟨(path_containment_rejection "/ws".data "/etc/passwd".data).1 (by decide),
   (path_containment_rejection "/ws".data "../x".data).2.2.1 (Or.inl (by decide))⟩

/-! ## Claims about error classification (shell/executor.py) -/

/-- C3 counterexample: a stderr consisting exactly of the phrase
"session not found" — which the claim says yields a `SessionError` — is
classified as a generic `ExecutionError`, because `_handle_error`
matches the phrase "no conversation found with session id", not
"session not found". -/
theorem handle_error_phrase_mismatch :
    handle_error "session not found".data none =
      .executionError ("Claude CLI error: session not found".data) ∧
    isSubstr "session not found".data (pyLower "session not found".data) = true := by
  exact ⟨by decide, by decide⟩

/-- C3 amended: classification of stderr is by case-insensitive substring
match with first match winning, but the matched phrases are
"no conversation found with session id" (session not found) and
"not a valid uuid" (malformed token), both yielding `SessionError`;
"rate limit" yields the rate-limited `ExecutionError`; any other stderr
yields a generic `ExecutionError` carrying the raw stderr text. -/
theorem handle_error_classification :
    ∀ (stderr : List Char) (sid : Option (List Char)),
      (isSubstr "no conversation found with session id".data (pyLower stderr) = true →
        handle_error stderr sid =
          .sessionError ("Session not found: ".data ++ sessionIdText sid)) ∧
      (isSubstr "no conversation found with session id".data (pyLower stderr) = false →
        isSubstr "not a valid uuid".data (pyLower stderr) = true →
        handle_error stderr sid =
          .sessionError ("Invalid session ID format: ".data ++ sessionIdText sid)) ∧
      (isSubstr "no conversation found with session id".data (pyLower stderr) = false →
        isSubstr "not a valid uuid".data (pyLower stderr) = false →
        isSubstr "rate limit".data (pyLower stderr) = true →
        handle_error stderr sid = .executionError "Rate limit exceeded".data) ∧
      (isSubstr "no conversation found with session id".data (pyLower stderr) = false →
        isSubstr "not a valid uuid".data (pyLower stderr) = false →
        isSubstr "rate limit".data (pyLower stderr) = false →
        handle_error stderr sid = .executionError ("Claude CLI error: ".data ++ stderr)) := by
  intro stderr sid
  refine ⟨?_, ?_, ?_, ?_⟩
  · intro h1
    simp [handle_error, h1]
  · intro h1 h2
    simp [handle_error, h1, h2]
  · intro h1 h2 h3
    simp [handle_error, h1, h2, h3]
  · intro h1 h2 h3
    simp [handle_error, h1, h2, h3]

theorem handle_error_classification_witness :
    handle_error "No conversation found with session ID abc".data (some "abc".data) =
      .sessionError ("Session not found: ".data ++ sessionIdText (some "abc".data)) :=
  (handle_error_classification "No conversation found with session ID abc".data
    (some "abc".data)).1 (by decide)

/-! ## Claims about the workspace manager -/

/-- C7: a `create_workspace` call whose id is already tracked in the
active registry fails with the duplicate-id error and leaves the manager
state — registry and filesystem — completely unchanged, so no directory
is created or modified. -/
theorem create_workspace_duplicate_id :
    ∀ (st : MgrState) (env : ImportEnv) (workspace_id : String)
      (files folders repos : List String) (persistent : Bool),
      (st.activeWorkspaces.lookup workspace_id).isSome = true →
      create_workspace st env workspace_id files folders repos persistent =
        (.error ("Workspace '" ++ workspace_id ++ "' already exists"), st) := by
  intro st env workspace_id files folders repos persistent h
  simp [create_workspace, h]

theorem create_workspace_duplicate_id_witness :
    create_workspace ⟨[("x", "/p")], ⟨[]⟩⟩
        ⟨none, none, none, true, "s"⟩ "x" [] [] [] false =
      (.error "Workspace 'x' already exists", ⟨[("x", "/p")], ⟨[]⟩⟩) :=
  create_workspace_duplicate_id ⟨[("x", "/p")], ⟨[]⟩⟩
    ⟨none, none, none, true, "s"⟩ "x" [] [] [] false (by decide)

/-! ## Lemmas: filesystem model and import phase -/

theorem mapAddItem_any (p item q : String) :
    ∀ l : List (String × List String),
      ((l.map (fun kv => if kv.1 = p then (kv.1, kv.2 ++ [item]) else kv)).any
          (fun kv => kv.1 == q))
        = l.any (fun kv => kv.1 == q)
  | [] => rfl
  | kv :: l => by
    by_cases hkv : kv.1 = p <;>
      simp [hkv, mapAddItem_any p item q l]

theorem FS.hasDir_addItem (fs : FS) (p item q : String) :
    (fs.addItem p item).hasDir q = fs.hasDir q :=
  mapAddItem_any p item q fs.entries

theorem FS.hasDir_foldl_addItem (g : String → String) (p q : String) :
    ∀ (xs : List String) (fs : FS),
      ((xs.foldl (fun a n => a.addItem p (g n)) fs).hasDir q) = fs.hasDir q
  | [], _ => rfl
  | x :: xs, fs => by
    rw [List.foldl_cons, FS.hasDir_foldl_addItem g p q xs, FS.hasDir_addItem]

theorem mapAddItem_filter (p item : String) :
    ∀ l : List (String × List String),
      ((l.map (fun kv => if kv.1 = p then (kv.1, kv.2 ++ [item]) else kv)).filter
          (fun kv => kv.1 != p))
        = l.filter (fun kv => kv.1 != p)
  | [] => rfl
  | kv :: l => by
    by_cases hkv : kv.1 = p <;>
      simp [hkv, mapAddItem_filter p item l]

theorem FS.filter_addItem (fs : FS) (p item : String) :
    (fs.addItem p item).entries.filter (fun kv => kv.1 != p)
      = fs.entries.filter (fun kv => kv.1 != p) :=
  mapAddItem_filter p item fs.entries

theorem FS.filter_foldl_addItem (g : String → String) (p : String) :
    ∀ (xs : List String) (fs : FS),
      ((xs.foldl (fun a n => a.addItem p (g n)) fs).entries.filter (fun kv => kv.1 != p))
        = fs.entries.filter (fun kv => kv.1 != p)
  | [], _ => rfl
  | x :: xs, fs => by
    rw [List.foldl_cons, FS.filter_foldl_addItem g p xs, FS.filter_addItem]

theorem importPhase_hasDir (fs : FS) (root : String) (env : ImportEnv)
    (files folders repos : List String) (q : String) :
    (importPhase fs root env files folders repos).1.hasDir q = fs.hasDir q := by
  unfold importPhase
  repeat' split
  all_goals
    simp [FS.hasDir_addItem, FS.hasDir_foldl_addItem]

theorem importPhase_filter (fs : FS) (root : String) (env : ImportEnv)
    (files folders repos : List String) :
    (importPhase fs root env files folders repos).1.entries.filter (fun kv => kv.1 != root)
      = fs.entries.filter (fun kv => kv.1 != root) := by
  unfold importPhase
  repeat' split
  all_goals
    simp [FS.filter_addItem, FS.filter_foldl_addItem]

theorem FS.hasDir_false_filter (fs : FS) (p : String) (h : fs.hasDir p = false) :
    fs.entries.filter (fun kv => kv.1 != p) = fs.entries := by
  obtain ⟨l⟩ := fs
  unfold FS.hasDir at h
  simp only at h ⊢
  induction l with
  | nil => rfl
  | cons kv l ih =>
    simp only [List.any_cons, Bool.or_eq_false_iff, beq_eq_false_iff_ne] at h
    simp [List.filter_cons, h.1, ih h.2]

theorem FS.hasDir_mkdirExistOk (fs : FS) (p : String) :
    (fs.mkdirExistOk p).hasDir p = true := by
  unfold FS.mkdirExistOk
  split
  · assumption
  · simp [FS.mkdirNew, FS.hasDir]

/-- C8: when any resource import fails during `create_workspace`, the
error propagates, the id is not registered in the active registry, and:
an ephemeral workspace's partially-populated directory is deleted
entirely, returning the filesystem to its previous state; a persistent
workspace's directory is left as-is (still present, no rollback). -/
theorem create_workspace_rollback :
    ∀ (st : MgrState) (env : ImportEnv) (workspace_id : String)
      (files folders repos : List String) (persistent : Bool) (e : String),
      (st.activeWorkspaces.lookup workspace_id).isSome = false →
      (importPhase
          (if persistent then st.fs.mkdirExistOk (workspaceRoot env workspace_id persistent)
           else st.fs.mkdirNew (workspaceRoot env workspace_id persistent))
          (workspaceRoot env workspace_id persistent) env files folders repos).2 = some e →
      (create_workspace st env workspace_id files folders repos persistent).1 = .error e ∧
      (create_workspace st env workspace_id files folders repos persistent).2.activeWorkspaces
        = st.activeWorkspaces ∧
      (persistent = false →
        st.fs.hasDir (workspaceRoot env workspace_id persistent) = false →
        (create_workspace st env workspace_id files folders repos persistent).2.fs = st.fs) ∧
      (persistent = true →
        (create_workspace st env workspace_id files folders repos persistent).2.fs.hasDir
          (workspaceRoot env workspace_id persistent) = true) := by
  intro st env workspace_id files folders repos persistent e hdup hfail
  unfold create_workspace
  rw [if_neg (by simp [hdup])]
  rcases hIP : importPhase
      (if persistent then st.fs.mkdirExistOk (workspaceRoot env workspace_id persistent)
       else st.fs.mkdirNew (workspaceRoot env workspace_id persistent))
      (workspaceRoot env workspace_id persistent) env files folders repos with ⟨fs2, o⟩
  rw [hIP] at hfail
  simp only at hfail
  subst hfail
  simp only [hIP]
  refine ⟨trivial, trivial, ?_, ?_⟩
  · intro hpers hfresh
    subst hpers
    have hfs1 : fs2.hasDir (workspaceRoot env workspace_id false) = true := by
      have := importPhase_hasDir
        (st.fs.mkdirNew (workspaceRoot env workspace_id false))
        (workspaceRoot env workspace_id false) env files folders repos
        (workspaceRoot env workspace_id false)
      rw [if_neg (by simp)] at hIP
      rw [hIP] at this
      simp only at this
      rw [this]
      simp [FS.mkdirNew, FS.hasDir]
    rw [if_pos ⟨hfs1, rfl⟩]
    have hfilt : fs2.entries.filter
        (fun kv => kv.1 != workspaceRoot env workspace_id false)
        = st.fs.entries := by
      have h1 := importPhase_filter
        (st.fs.mkdirNew (workspaceRoot env workspace_id false))
        (workspaceRoot env workspace_id false) env files folders repos
      rw [if_neg (by simp)] at hIP
      rw [hIP] at h1
      simp only at h1
      rw [h1]
      show (((workspaceRoot env workspace_id false, []) :: st.fs.entries).filter
        (fun kv => kv.1 != workspaceRoot env workspace_id false)) = st.fs.entries
      rw [List.filter_cons]
      simp only [bne_self_eq_false, Bool.false_eq_true, if_false]
      exact FS.hasDir_false_filter st.fs _ hfresh
    show FS.rmtree fs2 (workspaceRoot env workspace_id false) = st.fs
    unfold FS.rmtree
    rw [hfilt]
  · intro hpers
    subst hpers
    rw [if_neg (by simp)]
    have := importPhase_hasDir
      (st.fs.mkdirExistOk (workspaceRoot env workspace_id true))
      (workspaceRoot env workspace_id true) env files folders repos
      (workspaceRoot env workspace_id true)
    rw [if_pos rfl] at hIP
    rw [hIP] at this
    simp only at this
    rw [this]
    exact FS.hasDir_mkdirExistOk st.fs (workspaceRoot env workspace_id true)

theorem create_workspace_rollback_witness :
    (create_workspace ⟨[], ⟨[]⟩⟩ ⟨some "copy failed", none, none, true, "s"⟩
        "w" ["a"] [] [] false).1 = .error "copy failed" ∧
    (create_workspace ⟨[], ⟨[]⟩⟩ ⟨some "copy failed", none, none, true, "s"⟩
        "w" ["a"] [] [] false).2.activeWorkspaces = [] ∧
    (create_workspace ⟨[], ⟨[]⟩⟩ ⟨some "copy failed", none, none, true, "s"⟩
        "w" ["a"] [] [] false).2.fs = ⟨[]⟩ := by
  have h := create_workspace_rollback ⟨[], ⟨[]⟩⟩
    ⟨some "copy failed", none, none, true, "s"⟩ "w" ["a"] [] [] false "copy failed"
    (by decide) (by decide)
  exact ⟨h.1, h.2.1, h.2.2.1 rfl (by decide)⟩

/-! ## Claims about the agent runner -/

/-- C10: `run_agent_with_io` never propagates a failure to its caller:
whichever stage fails — workspace creation, agent invocation, or output
harvesting — the call returns the failure `AgentRunResult`, which has
success false, the error message in `error`, empty file/folder lists,
empty session id and text output, and zero cost. -/
theorem run_agent_with_io_never_raises :
    ∀ (env : RunEnv) (cleanup : Bool),
      (∀ e, env.createResult = .error e →
        run_agent_with_io env cleanup = failureResult e none) ∧
      (∀ e w, env.createResult = .ok w → env.execResult = .error e →
        run_agent_with_io env cleanup = failureResult e (some w)) ∧
      (∀ e w r, env.createResult = .ok w → env.execResult = .ok r →
        env.harvestResult = .error e →
        run_agent_with_io env cleanup = failureResult e (some w)) ∧
      (∀ e ws, (failureResult e ws).success = false ∧
        (failureResult e ws).error = some e ∧
        (failureResult e ws).files_created = [] ∧
        (failureResult e ws).folders_created = [] ∧
        (failureResult e ws).session_id = "" ∧
        (failureResult e ws).text_output = "" ∧
        (failureResult e ws).cost_usd = 0) := by
  intro env cleanup
  refine ⟨?_, ?_, ?_, ?_⟩
  · intro e h
    simp [run_agent_with_io, h]
  · intro e w h1 h2
    simp [run_agent_with_io, h1, h2]
  · intro e w r h1 h2 h3
    simp [run_agent_with_io, h1, h2, h3]
  · intro e ws
    exact ⟨rfl, rfl, rfl, rfl, rfl, rfl, rfl⟩

theorem run_agent_with_io_never_raises_witness :
    run_agent_with_io ⟨.error "boom", .ok ⟨some "s", some "t", 0⟩, .ok ([], []), .ok true⟩ true =
      failureResult "boom" none :=
  (run_agent_with_io_never_raises
    ⟨.error "boom", .ok ⟨some "s", some "t", 0⟩, .ok ([], []), .ok true⟩ true).1 "boom" rfl

end CMA
